import Mathlib

/-!
Verification of the per-row laser-line height pipeline of the `ltp`
repository (`internal/frameprocessor/frameprocessor.go`).

The Go code is embedded shallowly:
* 16-bit color channels (as returned by the Go `color.Color.RGBA()`
  method) become natural numbers;
* the image is a width x height grid of colors with an access function,
  mirroring `image.Image.At(x, y)`;
* `float64` arithmetic is modelled exactly: rational arithmetic for the
  algebraic parts and `Real.sqrt` for the square roots, with the Go
  float-to-integer conversion (truncation toward zero on the nonnegative
  values arising here) modelled as `Nat.floor`;
* the color-distance metric used by `DetermineHeightPerLine` is a
  parameter `dist : Color → Color → ℕ` of the pipeline (the source fixes
  it to `ColorDistanceRedman`, whose floating-point value is modelled
  separately below); the success of the debug-image file write, which is
  operating-system I/O, is a Boolean environment parameter `sinkOk`;
* the Go `map[int]float64` keyed by the row indices `0 .. height-1` is
  modelled as the list of row values in row order.
-/

namespace LTP

/-- A color sample, channels as returned by the Go `RGBA()` method
(16-bit range). -/
structure Color where
  r : ℕ
  g : ℕ
  b : ℕ
  a : ℕ
deriving DecidableEq

/-- A decoded frame: `pixel x y` mirrors `img.At(x, y)`. -/
structure Img where
  width : ℕ
  height : ℕ
  pixel : ℕ → ℕ → Color

/-- Mirror of `CalibrationResults` of the Go source, float fields as
rationals. -/
structure CalibrationResults where
  distanceAt0 : ℚ
  distanceAt10 : ℚ
  widthOfLaser : ℚ
  pixelPerMM : ℚ

/-- Mirror of `DebugOptions` of the Go source.  The filename map is
irrelevant to the behaviour modelled here and is dropped. -/
structure DebugOptions where
  enable : Bool

/-- Mirror of `ProcessorOptions` of the Go source.  `MinThroughWidth` is
a Go `int`, hence an integer here. -/
structure ProcessorOptions where
  lineDirection : String
  lasercolor : Color
  maxColorDeviation : ℕ
  minThroughWidth : ℤ
  minThroughHeight : ℕ
  calibrationResults : CalibrationResults
  debug : DebugOptions

/-- The `Validate` method of `ProcessorOptions`: only the line direction
is checked. -/
def Validate (po : ProcessorOptions) : Except String Unit :=
  if po.lineDirection ≠ "horizontal" then
    Except.error "Line-Direction is invalid. Valid Values are: horizontal"
  else
    Except.ok ()

/-- The radicand of `ColorDistanceSimpleEuclidean`: the sum of squared
channel differences, at native 16-bit channel precision. -/
def euclidSqDist (c1 c2 : Color) : ℚ :=
  ((c1.r : ℚ) - (c2.r : ℚ)) ^ 2 + ((c1.g : ℚ) - (c2.g : ℚ)) ^ 2 +
    ((c1.b : ℚ) - (c2.b : ℚ)) ^ 2

/-- The real value `dist` computed by `ColorDistanceSimpleEuclidean`
before the range checks: `sqrt(Δr² + Δg² + Δb²) / 2`. -/
noncomputable def euclidDist (c1 c2 : Color) : ℝ :=
  Real.sqrt ((euclidSqDist c1 c2 : ℚ) : ℝ) / 2

/-- Mirror of `ColorDistanceSimpleEuclidean`, with the branch order of the
source: fail when `dist < 0`; when `dist > 65535` either fail (above the
empirical bound 65601) or clip to 65535; otherwise convert to `uint16`
(truncation toward zero on these nonnegative values, i.e. `Nat.floor`). -/
noncomputable def ColorDistanceSimpleEuclidean (c1 c2 : Color) :
    Except String ℕ :=
  if euclidDist c1 c2 < 0 then
    Except.error "dist is < 0 which should not be possible"
  else if 65535 < euclidDist c1 c2 then
    if 65601 < euclidDist c1 c2 then
      Except.error "dist is > max which should not be possible"
    else
      Except.ok 65535
  else
    Except.ok (Nat.floor (euclidDist c1 c2))

/-- Reduction of a 16-bit channel to 8 bits: the `>> 8` of the source. -/
def reduce8 (x : ℕ) : ℕ := x / 256

/-- The radicand computed by `ColorDistanceRedman`, with the
parenthesisation of the source: `r := 0.5*(r1+r2)` over the
8-bit-reduced channels and
`(2+(r/256))*(r1-r2)^2 + 4*(g1-g2)^2 + (2 + ((255-r)/256)*(b1-b2)^2)`
— in the last summand the weight `(255-r)/256` multiplies the squared
blue difference and the constant `2` is added to the sum. -/
def redmanRadicand (c1 c2 : Color) : ℚ :=
  let r1 : ℚ := (reduce8 c1.r : ℕ)
  let g1 : ℚ := (reduce8 c1.g : ℕ)
  let b1 : ℚ := (reduce8 c1.b : ℕ)
  let r2 : ℚ := (reduce8 c2.r : ℕ)
  let g2 : ℚ := (reduce8 c2.g : ℕ)
  let b2 : ℚ := (reduce8 c2.b : ℕ)
  let r : ℚ := (1 / 2) * (r1 + r2)
  (2 + r / 256) * (r1 - r2) ^ 2 + 4 * (g1 - g2) ^ 2 +
    (2 + ((255 - r) / 256) * (b1 - b2) ^ 2)

/-- Mirror of `ColorDistanceRedman`: `uint16(sqrt(radicand) * 65535/675)`;
the Go conversion truncates the nonnegative float toward zero. -/
noncomputable def ColorDistanceRedman (c1 c2 : Color) : ℕ :=
  Nat.floor (Real.sqrt ((redmanRadicand c1 c2 : ℚ) : ℝ) * 65535 / 675)

/-- The radicand of the Redmean formula as the specification describes it:
over the same 8-bit-reduced channels, with the whole weight
`(2+(255-r̄)/256)` multiplying the squared blue difference. -/
def redmeanSpecRadicand (c1 c2 : Color) : ℚ :=
  let r1 : ℚ := (reduce8 c1.r : ℕ)
  let g1 : ℚ := (reduce8 c1.g : ℕ)
  let b1 : ℚ := (reduce8 c1.b : ℕ)
  let r2 : ℚ := (reduce8 c2.r : ℕ)
  let g2 : ℚ := (reduce8 c2.g : ℕ)
  let b2 : ℚ := (reduce8 c2.b : ℕ)
  let rbar : ℚ := (r1 + r2) / 2
  (2 + rbar / 256) * (r1 - r2) ^ 2 + 4 * (g1 - g2) ^ 2 +
    (2 + (255 - rbar) / 256) * (b1 - b2) ^ 2

/-- The Redmean distance as the claim describes it: square root of the
spec radicand, scaled by `65535/675` and rounded to the nearest
integer. -/
noncomputable def redmeanSpecDistance (c1 c2 : Color) : ℤ :=
  round (Real.sqrt ((redmeanSpecRadicand c1 c2 : ℚ) : ℝ) * 65535 / 675)

/-- The amended spec formula for the Redmean variant, written over the
8-bit channel values: with `r̄ = (r1+r2)/2`, the value is
`trunc(sqrt((2+r̄/256)·(r1-r2)² + 4·(g1-g2)² + 2 + ((255-r̄)/256)·(b1-b2)²)
· 65535/675)` — only `(255-r̄)/256` weights the squared blue difference,
the constant 2 joins the sum additively, and the result is truncated. -/
noncomputable def redmeanAmendedSpec (r1 g1 b1 r2 g2 b2 : ℕ) : ℕ :=
  let rbar : ℚ := ((r1 : ℚ) + (r2 : ℚ)) / 2
  Nat.floor (Real.sqrt (((2 + rbar / 256) * ((r1 : ℚ) - (r2 : ℚ)) ^ 2 +
    4 * ((g1 : ℚ) - (g2 : ℚ)) ^ 2 + 2 +
    ((255 - rbar) / 256) * ((b1 : ℚ) - (b2 : ℚ)) ^ 2 : ℚ) : ℝ) * 65535 / 675)

/-- The clipping step of the profile builder: a distance above
`maxColorDeviation` is replaced by `math.MaxUint16`. -/
def clipDeviation (maxDev : ℕ) (f : ℕ) : ℕ :=
  if maxDev < f then 65535 else f

/-- The pixels of row `y`, columns `0 .. width-1` in order, mirroring the
inner `for x` loop of `DetermineHeightPerLine`. -/
def rowPixels (img : Img) (y : ℕ) : List Color :=
  (List.range img.width).map (fun x => img.pixel x y)

/-- The deviation profile of a row: per-column distance to the laser
color, then clipped. -/
def deviationProfile (dist : Color → Color → ℕ) (laser : Color)
    (maxDev : ℕ) (row : List Color) : List ℕ :=
  row.map (fun p => clipDeviation maxDev (dist p laser))

/-- Mirror of `isThrough` of the Go source, on a window `numbers` with
center `middleIndex`.  The center must be lower than both edge values by
at least `minThroughHeight` (the source compares via `int32` casts,
modelled by integer subtraction), every value strictly between the left
edge and the center must be `≥` the center and `≤` the left edge (the
source loop runs from `middleIndex-1` down to index 1), and symmetrically
on the right (loop from `middleIndex+1` up to `length-2`). -/
def isThrough (numbers : List ℕ) (middleIndex : ℕ)
    (minThroughHeight : ℕ) : Bool :=
  let centerValue := numbers.getD middleIndex 0
  let leftSideValue := numbers.getD 0 0
  let rightSideValue := numbers.getD (numbers.length - 1) 0
  if (leftSideValue : ℤ) - (centerValue : ℤ) < (minThroughHeight : ℤ) then
    false
  else if (rightSideValue : ℤ) - (centerValue : ℤ) < (minThroughHeight : ℤ) then
    false
  else
    decide (∀ i < middleIndex, 1 ≤ i →
      centerValue ≤ numbers.getD i 0 ∧ numbers.getD i 0 ≤ leftSideValue) &&
    decide (∀ i < numbers.length - 1, middleIndex + 1 ≤ i →
      centerValue ≤ numbers.getD i 0 ∧ numbers.getD i 0 ≤ rightSideValue)

/-- Half of the window width, `(minThroughWidth - 1) / 2`, with the
truncated `int` division of Go. -/
def halfWidth (w : ℤ) : ℕ := ((w - 1).tdiv 2).toNat

/-- The list of trough center indices: the source loop
`for i := half; i < len(numbers)-half; i++` collecting the `i` for which
`isThrough(numbers[i-half : i+half+1], half, minThroughHeight)` holds. -/
def throughsList (numbers : List ℕ) (minThroughWidth : ℤ)
    (minThroughHeight : ℕ) : List ℕ :=
  let half := halfWidth minThroughWidth
  (List.range numbers.length).filter (fun i =>
    decide (half ≤ i) && decide (i + half < numbers.length) &&
      isThrough ((numbers.drop (i - half)).take (2 * half + 1)) half
        minThroughHeight)

/-- Mirror of `findThroughs`: rejects a `minThroughWidth` whose Go
remainder `% 2` (truncated modulus) is not 1, otherwise returns the
trough list. -/
def findThroughs (numbers : List ℕ) (minThroughWidth : ℤ)
    (minThroughHeight : ℕ) : Except String (List ℕ) :=
  if minThroughWidth.tmod 2 ≠ 1 then
    Except.error "the minimum through with needs to be an uneven number"
  else
    Except.ok (throughsList numbers minThroughWidth minThroughHeight)

/-- The per-row height decision of `DetermineHeightPerLine`: one trough
means baseline height 0; two troughs at `a, b` mean
`|a - b| / pixelPerMM` (the source computes `math.Abs(float64(a - b))`
on the first two entries); anything else records the sentinel `-1`. -/
def rowHeight (throughs : List ℕ) (pixelPerMM : ℚ) : ℚ :=
  if throughs.length = 1 then 0
  else if throughs.length = 2 then
    ((((throughs.getD 0 0 : ℤ) - (throughs.getD 1 0 : ℤ)).natAbs : ℕ) : ℚ) /
      pixelPerMM
  else -1

/-- One iteration of the row loop of `DetermineHeightPerLine`: build the
profile of row `y`, find its troughs (propagating the wrapped error), and
compute the row value. -/
def processRow (dist : Color → Color → ℕ) (img : Img)
    (options : ProcessorOptions) (y : ℕ) : Except String ℚ :=
  match findThroughs
      (deviationProfile dist options.lasercolor options.maxColorDeviation
        (rowPixels img y))
      options.minThroughWidth options.minThroughHeight with
  | Except.error e => Except.error ("failed to find throughs: " ++ e)
  | Except.ok ts => Except.ok (rowHeight ts options.calibrationResults.pixelPerMM)

/-- The row loop `for y := 0; y < height; y++`, returning at the first
failing row, otherwise accumulating the row values in order. -/
def rowsLoop (f : ℕ → Except String ℚ) : ℕ → Except String (List ℚ)
  | 0 => Except.ok []
  | n + 1 =>
    match rowsLoop f n, f n with
    | Except.error e, _ => Except.error e
    | Except.ok _, Except.error e => Except.error e
    | Except.ok hs, Except.ok v => Except.ok (hs ++ [v])

/-- Mirror of `DetermineHeightPerLine`: validate the options, process
every row, then — when debug output is enabled — attempt to persist the
debug image and fail the whole call if that write fails (`sinkOk = false`
covers both the file-open and the encode failure of the source). -/
def DetermineHeightPerLine (dist : Color → Color → ℕ) (sinkOk : Bool)
    (img : Img) (options : ProcessorOptions) : Except String (List ℚ) :=
  match Validate options with
  | Except.error _ => Except.error "failed to validate options"
  | Except.ok _ =>
    match rowsLoop (processRow dist img options) img.height with
    | Except.error e => Except.error e
    | Except.ok result =>
      if options.debug.enable && !sinkOk then
        Except.error "failed to open debug file"
      else
        Except.ok result

/-- The deviation profile of row `y` under the pipeline options. -/
def profileOf (dist : Color → Color → ℕ) (img : Img)
    (options : ProcessorOptions) (y : ℕ) : List ℕ :=
  deviationProfile dist options.lasercolor options.maxColorDeviation
    (rowPixels img y)

/-- The trough list of row `y` under the pipeline options. -/
def throughsOf (dist : Color → Color → ℕ) (img : Img)
    (options : ProcessorOptions) (y : ℕ) : List ℕ :=
  throughsList (profileOf dist img options y) options.minThroughWidth
    options.minThroughHeight

/-- The trough predicate exactly as the specification words it, stated
directly over the profile `p`: the center `i` lies in `[half, len-half)`,
the window edge values at `i-half` and `i+half` exceed the center value
by at least `minThroughHeight`, and every value strictly between the
center and an edge is at least the center value and at most that edge
value. -/
def troughSpec (p : List ℕ) (half h i : ℕ) : Prop :=
  half ≤ i ∧ i + half < p.length ∧
  (h : ℤ) ≤ (p.getD (i - half) 0 : ℤ) - (p.getD i 0 : ℤ) ∧
  (h : ℤ) ≤ (p.getD (i + half) 0 : ℤ) - (p.getD i 0 : ℤ) ∧
  (∀ j, i - half < j → j < i →
    p.getD i 0 ≤ p.getD j 0 ∧ p.getD j 0 ≤ p.getD (i - half) 0) ∧
  (∀ j, i < j → j < i + half →
    p.getD i 0 ≤ p.getD j 0 ∧ p.getD j 0 ≤ p.getD (i + half) 0)

/-- The window trough conditions strengthened by a slack `2ε`: both edges
exceed the center by at least `minThroughHeight + 2ε`, and every
intermediate value keeps a margin of `2ε` toward the center and toward
its edge. -/
def isThroughSlack (u : List ℕ) (mid ε h : ℕ) : Prop :=
  (h : ℤ) + 2 * ε ≤ (u.getD 0 0 : ℤ) - (u.getD mid 0 : ℤ) ∧
  (h : ℤ) + 2 * ε ≤ (u.getD (u.length - 1) 0 : ℤ) - (u.getD mid 0 : ℤ) ∧
  (∀ k < mid, 1 ≤ k →
    u.getD mid 0 + 2 * ε ≤ u.getD k 0 ∧ u.getD k 0 + 2 * ε ≤ u.getD 0 0) ∧
  (∀ k < u.length - 1, mid + 1 ≤ k →
    u.getD mid 0 + 2 * ε ≤ u.getD k 0 ∧
      u.getD k 0 + 2 * ε ≤ u.getD (u.length - 1) 0)

/-! Concrete fixtures used by witnesses and counterexamples. -/

/-- A degenerate metric assigning distance 0 to every pair of colors. -/
def distZero : Color → Color → ℕ := fun _ _ => 0

/-- A metric reading the distance off the red channel of the pixel, used
to drive concrete profiles through the pipeline. -/
def distRed : Color → Color → ℕ := fun p _ => p.r

/-- The image with zero rows and zero columns. -/
def imgEmpty : Img := ⟨0, 0, fun _ _ => ⟨0, 0, 0, 0⟩⟩

/-- A 1 x 1 black image. -/
def imgOne : Img := ⟨1, 1, fun _ _ => ⟨0, 0, 0, 0⟩⟩

/-- A 5-column single-row image whose red channels spell the profile
`[5, 0, 5, 0, 5]`. -/
def imgProfile : Img :=
  ⟨5, 1, fun x _ => ⟨([5, 0, 5, 0, 5] : List ℕ).getD x 0, 0, 0, 0⟩⟩

/-- Options with an even `minThroughWidth` (4), debug disabled. -/
def optsEven : ProcessorOptions :=
  ⟨"horizontal", ⟨65535, 0, 0, 65535⟩, 10000, 4, 1, ⟨1, 1, 1, 1⟩, ⟨false⟩⟩

/-- Valid options (odd width 15), debug enabled. -/
def optsDebug : ProcessorOptions :=
  ⟨"horizontal", ⟨65535, 0, 0, 65535⟩, 10000, 15, 1, ⟨1, 1, 1, 1⟩, ⟨true⟩⟩

/-- Valid options with `minThroughWidth = 3`, `minThroughHeight = 1`,
`pixelPerMM = 1`, debug disabled. -/
def optsSmall : ProcessorOptions :=
  ⟨"horizontal", ⟨65535, 0, 0, 65535⟩, 10000, 3, 1, ⟨1, 1, 1, 1⟩, ⟨false⟩⟩

/-- The all-zero color. -/
def cBlack : Color := ⟨0, 0, 0, 0⟩

/-- White at 16 bits: its 8-bit reduction is `(255, 255, 255)`. -/
def cWhite : Color := ⟨65535, 65535, 65535, 65535⟩

/-- Yellow at 16 bits: its 8-bit reduction is `(255, 255, 0)`. -/
def cYellow : Color := ⟨65535, 65535, 0, 65535⟩

instance {ε α : Type} [DecidableEq ε] [DecidableEq α] :
    DecidableEq (Except ε α) := fun a b =>
  match a, b with
  | Except.error x, Except.error y =>
    if h : x = y then isTrue (by rw [h])
    else isFalse (fun hc => by cases hc; exact h rfl)
  | Except.error _, Except.ok _ => isFalse (fun hc => by cases hc)
  | Except.ok _, Except.error _ => isFalse (fun hc => by cases hc)
  | Except.ok x, Except.ok y =>
    if h : x = y then isTrue (by rw [h])
    else isFalse (fun hc => by cases hc; exact h rfl)

/-! Helper lemmas about indexing, the row loop and the trough finder. -/

theorem getD_drop (l : List ℕ) (a j : ℕ) :
    (l.drop a).getD j 0 = l.getD (a + j) 0 := by
  simp [List.getD_eq_getElem?_getD, List.getElem?_drop]

theorem getD_take (l : List ℕ) (n j : ℕ) (h : j < n) :
    (l.take n).getD j 0 = l.getD j 0 := by
  simp [List.getD_eq_getElem?_getD, List.getElem?_take_of_lt h]

theorem window_getD (p : List ℕ) (a n k : ℕ) (hkn : k < n) :
    ((p.drop a).take n).getD k 0 = p.getD (a + k) 0 := by
  rw [getD_take _ _ _ hkn, getD_drop]

theorem rowsLoop_length (f : ℕ → Except String ℚ) :
    ∀ n hs, rowsLoop f n = Except.ok hs → hs.length = n := by
  intro n
  induction n with
  | zero => intro hs h; cases h; rfl
  | succ n ih =>
    intro hs h
    unfold rowsLoop at h
    cases h1 : rowsLoop f n with
    | error e => rw [h1] at h; cases h
    | ok hs0 =>
      cases h2 : f n with
      | error e => rw [h1, h2] at h; cases h
      | ok v =>
        rw [h1, h2] at h
        cases h
        simp [ih hs0 h1]

theorem rowsLoop_get (f : ℕ → Except String ℚ) :
    ∀ n hs, rowsLoop f n = Except.ok hs →
      ∀ y < n, ∃ v, f y = Except.ok v ∧ hs[y]? = some v := by
  intro n
  induction n with
  | zero => intro hs _ y hy; omega
  | succ n ih =>
    intro hs h y hy
    unfold rowsLoop at h
    cases h1 : rowsLoop f n with
    | error e => rw [h1] at h; cases h
    | ok hs0 =>
      cases h2 : f n with
      | error e => rw [h1, h2] at h; cases h
      | ok v =>
        rw [h1, h2] at h
        cases h
        have hlen : hs0.length = n := rowsLoop_length f n hs0 h1
        rcases Nat.lt_or_ge y n with hy0 | hy0
        · obtain ⟨w, hw1, hw2⟩ := ih hs0 h1 y hy0
          refine ⟨w, hw1, ?_⟩
          rw [List.getElem?_append_left (by omega), hw2]
        · have hyn : y = n := by omega
          subst hyn
          refine ⟨v, h2, ?_⟩
          rw [← hlen, List.getElem?_concat_length]

theorem rowsLoop_all_ok (f : ℕ → Except String ℚ)
    (h : ∀ y, ∃ v, f y = Except.ok v) :
    ∀ n, ∃ hs, rowsLoop f n = Except.ok hs := by
  intro n
  induction n with
  | zero => exact ⟨[], rfl⟩
  | succ n ih =>
    obtain ⟨hs, hhs⟩ := ih
    obtain ⟨v, hv⟩ := h n
    exact ⟨hs ++ [v], by unfold rowsLoop; rw [hhs, hv]⟩

theorem rowsLoop_error (f : ℕ → Except String ℚ)
    (h : ∀ y, ∃ e, f y = Except.error e) :
    ∀ n, 0 < n → ∃ e, rowsLoop f n = Except.error e := by
  intro n hn
  cases n with
  | zero => omega
  | succ n =>
    cases h1 : rowsLoop f n with
    | error e => exact ⟨e, by unfold rowsLoop; rw [h1]⟩
    | ok hs =>
      obtain ⟨e, he⟩ := h n
      exact ⟨e, by unfold rowsLoop; rw [h1, he]⟩

theorem findThroughs_ok (p : List ℕ) (w : ℤ) (h : ℕ)
    (hodd : w.tmod 2 = 1) :
    findThroughs p w h = Except.ok (throughsList p w h) := by
  simp [findThroughs, hodd]

theorem determine_ok_rowsLoop (dist : Color → Color → ℕ) (sinkOk : Bool)
    (img : Img) (opts : ProcessorOptions) (hs : List ℚ)
    (h : DetermineHeightPerLine dist sinkOk img opts = Except.ok hs) :
    rowsLoop (processRow dist img opts) img.height = Except.ok hs := by
  unfold DetermineHeightPerLine at h
  split at h
  · cases h
  · split at h
    · cases h
    · rename_i heq
      split at h
      · cases h
      · cases h
        exact heq

theorem tmod_two_ne_one_of_even (w : ℤ) (h : w % 2 = 0) :
    w.tmod 2 ≠ 1 := by
  obtain ⟨k, hk⟩ := Int.dvd_of_emod_eq_zero h
  subst hk
  rw [Int.mul_tmod_right]
  decide

theorem processRow_ok (dist : Color → Color → ℕ) (img : Img)
    (opts : ProcessorOptions) (y : ℕ)
    (hodd : opts.minThroughWidth.tmod 2 = 1) :
    processRow dist img opts y =
      Except.ok (rowHeight (throughsOf dist img opts y)
        opts.calibrationResults.pixelPerMM) := by
  unfold processRow
  rw [findThroughs_ok _ _ _ hodd]
  rfl

theorem determine_eq_rowsLoop (dist : Color → Color → ℕ) (sinkOk : Bool)
    (img : Img) (opts : ProcessorOptions)
    (hdir : opts.lineDirection = "horizontal")
    (hnd : (opts.debug.enable && !sinkOk) = false) :
    DetermineHeightPerLine dist sinkOk img opts =
      rowsLoop (processRow dist img opts) img.height := by
  unfold DetermineHeightPerLine
  have hval : Validate opts = Except.ok () := by simp [Validate, hdir]
  rw [hval]
  cases hrl : rowsLoop (processRow dist img opts) img.height with
  | error e => rfl
  | ok result => simp [hnd]

theorem isThrough_window_iff (p : List ℕ) (half h i : ℕ)
    (hge : half ≤ i) (hlt : i + half < p.length) :
    isThrough ((p.drop (i - half)).take (2 * half + 1)) half h = true ↔
      ((h : ℤ) ≤ (p.getD (i - half) 0 : ℤ) - (p.getD i 0 : ℤ) ∧
       (h : ℤ) ≤ (p.getD (i + half) 0 : ℤ) - (p.getD i 0 : ℤ) ∧
       (∀ j, i - half < j → j < i →
         p.getD i 0 ≤ p.getD j 0 ∧ p.getD j 0 ≤ p.getD (i - half) 0) ∧
       (∀ j, i < j → j < i + half →
         p.getD i 0 ≤ p.getD j 0 ∧ p.getD j 0 ≤ p.getD (i + half) 0)) := by
  set u := (p.drop (i - half)).take (2 * half + 1) with hu
  have hlen : u.length = 2 * half + 1 := by
    rw [hu, List.length_take, List.length_drop]
    omega
  have hidx : ∀ k, k < 2 * half + 1 → u.getD k 0 = p.getD (i - half + k) 0 :=
    fun k hkn => window_getD p (i - half) (2 * half + 1) k hkn
  have hcenter : u.getD half 0 = p.getD i 0 := by
    rw [hidx half (by omega), show i - half + half = i by omega]
  have hleft : u.getD 0 0 = p.getD (i - half) 0 := by
    rw [hidx 0 (by omega), Nat.add_zero]
  have hright : u.getD (u.length - 1) 0 = p.getD (i + half) 0 := by
    rw [hlen, show 2 * half + 1 - 1 = 2 * half by omega,
      hidx (2 * half) (by omega), show i - half + 2 * half = i + half by omega]
  simp only [isThrough]
  rw [hcenter, hleft, hright, hlen]
  split_ifs with hA hB
  · simp only [Bool.false_eq_true, false_iff]
    rintro ⟨hc1, -, -, -⟩
    omega
  · simp only [Bool.false_eq_true, false_iff]
    rintro ⟨-, hc2, -, -⟩
    omega
  · rw [Bool.and_eq_true, decide_eq_true_eq, decide_eq_true_eq]
    constructor
    · rintro ⟨hL, hR⟩
      refine ⟨by omega, by omega, ?_, ?_⟩
      · intro j hj1 hj2
        have h5 := hL (j - (i - half)) (by omega) (by omega)
        rwa [hidx (j - (i - half)) (by omega),
          show i - half + (j - (i - half)) = j by omega] at h5
      · intro j hj1 hj2
        have h5 := hR (j - (i - half)) (by omega) (by omega)
        rwa [hidx (j - (i - half)) (by omega),
          show i - half + (j - (i - half)) = j by omega] at h5
    · rintro ⟨-, -, hL, hR⟩
      constructor
      · intro k hk1 hk2
        rw [hidx k (by omega)]
        exact hL (i - half + k) (by omega) (by omega)
      · intro k hk1 hk2
        rw [hidx k (by omega)]
        exact hR (i - half + k) (by omega) (by omega)

theorem isThrough_of_slack (u v : List ℕ) (mid ε h : ℕ)
    (hlen : u.length = v.length) (hmid : mid < u.length)
    (hpert : ∀ k < u.length, ((u.getD k 0 : ℤ) - (v.getD k 0 : ℤ)).natAbs ≤ ε)
    (hs : isThroughSlack u mid ε h) : isThrough v mid h = true := by
  obtain ⟨s1, s2, s3, s4⟩ := hs
  have pmid := hpert mid hmid
  have p0 := hpert 0 (by omega)
  have plast := hpert (u.length - 1) (by omega)
  have hvlast : v.getD (v.length - 1) 0 = v.getD (u.length - 1) 0 := by
    rw [hlen]
  simp only [isThrough]
  split_ifs with hA hB
  · exfalso
    omega
  · exfalso
    omega
  · rw [Bool.and_eq_true, decide_eq_true_eq, decide_eq_true_eq]
    constructor
    · intro k hk1 hk2
      have hsk := s3 k hk1 hk2
      have hp := hpert k (by omega)
      omega
    · intro k hk1 hk2
      have hk3 : k < u.length - 1 := by omega
      have hsk := s4 k hk3 hk2
      have hp := hpert k (by omega)
      omega

theorem redman_radicand_amended (c1 c2 : Color) :
    redmanRadicand c1 c2 =
      (2 + (((reduce8 c1.r : ℕ) : ℚ) + ((reduce8 c2.r : ℕ) : ℚ)) / 2 / 256) *
          (((reduce8 c1.r : ℕ) : ℚ) - ((reduce8 c2.r : ℕ) : ℚ)) ^ 2 +
        4 * (((reduce8 c1.g : ℕ) : ℚ) - ((reduce8 c2.g : ℕ) : ℚ)) ^ 2 + 2 +
        ((255 - (((reduce8 c1.r : ℕ) : ℚ) + ((reduce8 c2.r : ℕ) : ℚ)) / 2) /
            256) *
          (((reduce8 c1.b : ℕ) : ℚ) - ((reduce8 c2.b : ℕ) : ℚ)) ^ 2 := by
  simp only [redmanRadicand]
  ring

/-! ## C2 -/

/-- C2: for every deviation profile, every positive odd `minThroughWidth`
with `half = (minThroughWidth-1)/2` and every `minThroughHeight`, the
trough detector reports center `i` iff `i` is in `[half, len-half)`, both
window edges exceed the center by at least `minThroughHeight`, and
walking from the center to either edge every intermediate value is at
least the center value and at most that edge value. -/
theorem findThroughs_mem_iff (p : List ℕ) (w : ℤ) (h : ℕ)
    (hw : 0 < w) (hodd : w.tmod 2 = 1) (ts : List ℕ) (i : ℕ)
    (hts : findThroughs p w h = Except.ok ts) :
    i ∈ ts ↔ troughSpec p (halfWidth w) h i := by
  rw [findThroughs_ok p w h hodd] at hts
  cases hts
  unfold troughSpec
  simp only [throughsList, List.mem_filter, List.mem_range,
    Bool.and_eq_true, decide_eq_true_eq]
  constructor
  · rintro ⟨hir, ⟨hge, hlt⟩, hth⟩
    have h5 := (isThrough_window_iff p (halfWidth w) h i hge hlt).mp hth
    exact ⟨hge, hlt, h5.1, h5.2.1, h5.2.2.1, h5.2.2.2⟩
  · rintro ⟨hge, hlt, c1, c2, c3, c4⟩
    exact ⟨by omega, ⟨hge, hlt⟩,
      (isThrough_window_iff p (halfWidth w) h i hge hlt).mpr ⟨c1, c2, c3, c4⟩⟩

/-- Witness for C2: on the profile `[5,0,5]` with width 3 and height 1,
membership of index 1 yields the spec-side trough conditions. -/
theorem findThroughs_mem_iff_witness :
    troughSpec [5, 0, 5] (halfWidth 3) 1 1 :=
  (findThroughs_mem_iff [5, 0, 5] 3 1 (by decide) (by decide) [1] 1
    rfl).mp (by decide)

/-! ## C1 -/

/-- C1: for every row of the frame under a successful run, if the trough
detector found exactly one trough the recorded height is 0, and if it
found exactly two troughs at columns `a` and `b` the recorded height is
exactly `|a - b| / pixelPerMM`, with `pixelPerMM > 0` and no rounding
(the heights are exact rationals). -/
theorem determineHeightPerLine_height_formula
    (dist : Color → Color → ℕ) (sinkOk : Bool) (img : Img)
    (opts : ProcessorOptions) (hs : List ℚ) (y : ℕ) (ts : List ℕ)
    (hok : DetermineHeightPerLine dist sinkOk img opts = Except.ok hs)
    (hy : y < img.height)
    (hts : findThroughs (profileOf dist img opts y) opts.minThroughWidth
      opts.minThroughHeight = Except.ok ts)
    (hppm : 0 < opts.calibrationResults.pixelPerMM) :
    (ts.length = 1 → hs[y]? = some 0) ∧
      (∀ a b, ts = [a, b] →
        hs[y]? = some (((((a : ℤ) - (b : ℤ)).natAbs : ℕ) : ℚ) /
          opts.calibrationResults.pixelPerMM)) := by
  have hloop := determine_ok_rowsLoop dist sinkOk img opts hs hok
  obtain ⟨v, hv1, hv2⟩ := rowsLoop_get _ img.height hs hloop y hy
  have hpr : processRow dist img opts y =
      Except.ok (rowHeight ts opts.calibrationResults.pixelPerMM) := by
    unfold processRow
    rw [show deviationProfile dist opts.lasercolor opts.maxColorDeviation
      (rowPixels img y) = profileOf dist img opts y from rfl, hts]
  rw [hpr] at hv1
  cases hv1
  constructor
  · intro h1
    rw [hv2]
    unfold rowHeight
    rw [if_pos h1]
  · intro a b hab
    subst hab
    rw [hv2]
    unfold rowHeight
    norm_num [List.getD]

/-- Witness for C1: the 5-column profile `[5,0,5,0,5]` yields troughs at
columns 1 and 3 and the recorded height `|1 - 3| / 1`. -/
theorem determineHeightPerLine_height_formula_witness :
    ([(((((1 : ℤ) - (3 : ℤ)).natAbs : ℕ)) : ℚ) /
        optsSmall.calibrationResults.pixelPerMM] : List ℚ)[0]? =
      some ((((((1 : ℤ) - (3 : ℤ)).natAbs : ℕ)) : ℚ) /
        optsSmall.calibrationResults.pixelPerMM) :=
  (determineHeightPerLine_height_formula distRed true imgProfile optsSmall
    _ 0 [1, 3] rfl (by decide) (by decide)
    (show (0 : ℚ) < 1 by norm_num)).2 1 3 rfl

/-! ## C3 -/

/-- C3: with valid options (horizontal direction, odd width, debug off),
processing always succeeds; every row records exactly its `rowHeight`,
and in particular every row whose trough count is neither 1 nor 2 records
the sentinel `-1` while all other rows are still computed normally. -/
theorem determineHeightPerLine_ambiguous_sentinel
    (dist : Color → Color → ℕ) (sinkOk : Bool) (img : Img)
    (opts : ProcessorOptions)
    (hdir : opts.lineDirection = "horizontal")
    (hodd : opts.minThroughWidth.tmod 2 = 1)
    (hdebug : opts.debug.enable = false) :
    ∃ hs, DetermineHeightPerLine dist sinkOk img opts = Except.ok hs ∧
      ∀ y < img.height,
        hs[y]? = some (rowHeight (throughsOf dist img opts y)
          opts.calibrationResults.pixelPerMM) ∧
        ((throughsOf dist img opts y).length ≠ 1 →
          (throughsOf dist img opts y).length ≠ 2 →
          hs[y]? = some (-1)) := by
  obtain ⟨hs, hhs⟩ := rowsLoop_all_ok (processRow dist img opts)
    (fun y => ⟨_, processRow_ok dist img opts y hodd⟩) img.height
  refine ⟨hs, ?_, ?_⟩
  · rw [determine_eq_rowsLoop dist sinkOk img opts hdir (by rw [hdebug]; rfl)]
    exact hhs
  · intro y hy
    obtain ⟨v, hv1, hv2⟩ := rowsLoop_get _ img.height hs hhs y hy
    rw [processRow_ok dist img opts y hodd] at hv1
    cases hv1
    refine ⟨hv2, fun h1 h2 => ?_⟩
    rw [hv2]
    unfold rowHeight
    rw [if_neg h1, if_neg h2]

/-- Witness for C3 on a 1 x 1 image whose single row has zero troughs. -/
theorem determineHeightPerLine_ambiguous_sentinel_witness :
    ∃ hs, DetermineHeightPerLine distZero true imgOne optsSmall =
        Except.ok hs ∧
      ∀ y < imgOne.height,
        hs[y]? = some (rowHeight (throughsOf distZero imgOne optsSmall y)
          optsSmall.calibrationResults.pixelPerMM) ∧
        ((throughsOf distZero imgOne optsSmall y).length ≠ 1 →
          (throughsOf distZero imgOne optsSmall y).length ≠ 2 →
          hs[y]? = some (-1)) :=
  determineHeightPerLine_ambiguous_sentinel distZero true imgOne optsSmall
    rfl (by decide) rfl

/-! ## C9 -/

/-- C9: the deviation profile of a row has the same length as the row,
and the entry for each column equals the distance of the metric to the
laser color when that distance is at most `maxColorDeviation`, and 65535
(the maximum 16-bit value) when the distance exceeds it. -/
theorem deviationProfile_entries
    (dist : Color → Color → ℕ) (laser : Color) (maxDev : ℕ) (img : Img)
    (y x : ℕ) (hx : x < img.width) :
    (deviationProfile dist laser maxDev (rowPixels img y)).length =
        img.width ∧
      (dist (img.pixel x y) laser ≤ maxDev →
        (deviationProfile dist laser maxDev (rowPixels img y))[x]? =
          some (dist (img.pixel x y) laser)) ∧
      (maxDev < dist (img.pixel x y) laser →
        (deviationProfile dist laser maxDev (rowPixels img y))[x]? =
          some 65535) := by
  have hentry : (deviationProfile dist laser maxDev (rowPixels img y))[x]? =
      some (clipDeviation maxDev (dist (img.pixel x y) laser)) := by
    simp [deviationProfile, rowPixels, List.getElem?_map,
      List.getElem?_range hx]
  refine ⟨by simp [deviationProfile, rowPixels], ?_, ?_⟩
  · intro hle
    rw [hentry]
    unfold clipDeviation
    rw [if_neg (not_lt.mpr hle)]
  · intro hgt
    rw [hentry]
    unfold clipDeviation
    rw [if_pos hgt]

/-- Witness for C9: with threshold 3 over the profile `[5,0,5,0,5]`,
column 0 clips to 65535 and column 1 keeps its distance 0. -/
theorem deviationProfile_entries_witness :
    (deviationProfile distRed optsSmall.lasercolor 3
        (rowPixels imgProfile 0))[0]? = some 65535 ∧
      (deviationProfile distRed optsSmall.lasercolor 3
        (rowPixels imgProfile 0))[1]? = some 0 :=
  ⟨(deviationProfile_entries distRed optsSmall.lasercolor 3 imgProfile 0 0
      (by decide)).2.2 (by decide),
    (deviationProfile_entries distRed optsSmall.lasercolor 3 imgProfile 0 1
      (by decide)).2.1 (by decide)⟩

/-! ## C8 -/

/-- C8: for every deviation profile of length `n` and every positive odd
`minThroughWidth` with `half = (minThroughWidth-1)/2`, every index
returned by the trough detector satisfies `half ≤ i` and `i + half < n`,
so no trough index ever falls within the first or last `half` columns. -/
theorem findThroughs_index_bounds (p : List ℕ) (w : ℤ) (h : ℕ)
    (hw : 0 < w) (hodd : w.tmod 2 = 1) (ts : List ℕ)
    (hts : findThroughs p w h = Except.ok ts) :
    ∀ i ∈ ts, halfWidth w ≤ i ∧ i + halfWidth w < p.length := by
  rw [findThroughs_ok p w h hodd] at hts
  cases hts
  intro i hi
  simp only [throughsList, List.mem_filter, Bool.and_eq_true,
    decide_eq_true_eq] at hi
  exact ⟨hi.2.1.1, hi.2.1.2⟩

/-- Witness for C8 at the profile `[5,0,5]`, width 3, height 1. -/
theorem findThroughs_index_bounds_witness :
    (0 : ℤ) < 3 ∧ (3 : ℤ).tmod 2 = 1 ∧
      findThroughs [5, 0, 5] 3 1 = Except.ok [1] ∧
      (halfWidth 3 ≤ 1 ∧ 1 + halfWidth 3 < ([5, 0, 5] : List ℕ).length) :=
  ⟨by decide, by decide, rfl,
    findThroughs_index_bounds [5, 0, 5] 3 1 (by decide) (by decide) [1]
      rfl 1 (by decide)⟩

/-! ## C5 -/

/-- Counterexample to C5: `minThroughWidth = 4` is even, yet on an image
with zero rows `DetermineHeightPerLine` succeeds with an empty height
map — the oddness check sits inside `findThroughs`, which is only reached
once a row is processed, so the failure is not independent of image
content. -/
theorem evenWidth_zeroRows_ok :
    optsEven.minThroughWidth % 2 = 0 ∧
      DetermineHeightPerLine distZero true imgEmpty optsEven =
        Except.ok [] :=
  ⟨by decide, rfl⟩

/-- C5 (amended): for every image with at least one row and every options
value whose `minThroughWidth` is even (with a valid line direction),
processing the frame fails, independently of the pixel contents. -/
theorem determineHeightPerLine_evenWidth_error
    (dist : Color → Color → ℕ) (sinkOk : Bool) (img : Img)
    (opts : ProcessorOptions)
    (hdir : opts.lineDirection = "horizontal")
    (heven : opts.minThroughWidth % 2 = 0)
    (hrows : 0 < img.height) :
    ∃ e, DetermineHeightPerLine dist sinkOk img opts = Except.error e := by
  have hne := tmod_two_ne_one_of_even _ heven
  have hrow : ∀ y, ∃ e, processRow dist img opts y = Except.error e := by
    intro y
    unfold processRow findThroughs
    rw [if_pos hne]
    exact ⟨_, rfl⟩
  obtain ⟨e, he⟩ := rowsLoop_error _ hrow img.height hrows
  refine ⟨e, ?_⟩
  unfold DetermineHeightPerLine Validate
  rw [hdir]
  simp only [ne_eq, not_true_eq_false, if_false]
  rw [he]

/-- Witness for the amended C5 on a 1 x 1 image with width 4. -/
theorem determineHeightPerLine_evenWidth_error_witness :
    ∃ e, DetermineHeightPerLine distZero true imgOne optsEven =
      Except.error e :=
  determineHeightPerLine_evenWidth_error distZero true imgOne optsEven rfl
    (by decide) (by decide)

/-! ## C6 -/

/-- Counterexample to C6: with debug enabled and a failing sink, the row
loop has already computed the height list `[-1]`, yet the call returns
the sink error and not the computed heights. -/
theorem sinkFailure_discards_heights :
    rowsLoop (processRow distZero imgOne optsDebug) imgOne.height =
        Except.ok [-1] ∧
      DetermineHeightPerLine distZero false imgOne optsDebug =
        Except.error "failed to open debug file" :=
  ⟨rfl, rfl⟩

/-- C6 (amended): if debug output is enabled and persisting the debug
artifact fails, the call never returns the computed heights: its result
is an error, whatever the image and options. -/
theorem determineHeightPerLine_sinkFailure_no_ok
    (dist : Color → Color → ℕ) (img : Img) (opts : ProcessorOptions)
    (hdebug : opts.debug.enable = true) :
    ∀ hs, DetermineHeightPerLine dist false img opts ≠ Except.ok hs := by
  intro hs h
  unfold DetermineHeightPerLine at h
  split at h
  · cases h
  · split at h
    · cases h
    · rw [hdebug] at h
      simp at h

/-- Witness for the amended C6 on a 1 x 1 image. -/
theorem determineHeightPerLine_sinkFailure_no_ok_witness :
    DetermineHeightPerLine distZero false imgOne optsDebug ≠
      Except.ok [-1] :=
  determineHeightPerLine_sinkFailure_no_ok distZero imgOne optsDebug rfl [-1]

/-! ## C7 -/

/-- Counterexample to C7: the profiles `[2,0,2]` and `[1,1,1]` differ by
at most 1 at every index, strictly below `minThroughHeight = 2`, yet the
detector reports a trough at index 1 for the first and none for the
second. -/
theorem perturbation_changes_throughs :
    (∀ i < 3, ((([2, 0, 2] : List ℕ).getD i 0 : ℤ) -
        (([1, 1, 1] : List ℕ).getD i 0 : ℤ)).natAbs < 2) ∧
      findThroughs [2, 0, 2] 3 2 = Except.ok [1] ∧
      findThroughs [1, 1, 1] 3 2 = Except.ok [] :=
  ⟨by decide, rfl, rfl⟩

/-- C7 (amended): bounded per-pixel perturbation below `minThroughHeight`
can change the detected trough set (see the counterexample); what
survives any perturbation of magnitude at most `ε` is every center whose
window satisfies the trough conditions with slack `2ε`: such a center is
still reported for the perturbed profile. -/
theorem findThroughs_perturb_slack (p q : List ℕ) (w : ℤ) (h ε : ℕ)
    (hw : 0 < w) (hodd : w.tmod 2 = 1)
    (hlen : p.length = q.length)
    (hpert : ∀ k < p.length,
      ((p.getD k 0 : ℤ) - (q.getD k 0 : ℤ)).natAbs ≤ ε)
    (i : ℕ) (hge : halfWidth w ≤ i) (hlt : i + halfWidth w < p.length)
    (hslack : isThroughSlack
      ((p.drop (i - halfWidth w)).take (2 * halfWidth w + 1))
      (halfWidth w) ε h) :
    ∃ ts, findThroughs q w h = Except.ok ts ∧ i ∈ ts := by
  refine ⟨throughsList q w h, findThroughs_ok q w h hodd, ?_⟩
  simp only [throughsList, List.mem_filter, List.mem_range,
    Bool.and_eq_true, decide_eq_true_eq]
  refine ⟨by omega, ⟨by omega, by omega⟩, ?_⟩
  have hup : ((p.drop (i - halfWidth w)).take (2 * halfWidth w + 1)).length =
      2 * halfWidth w + 1 := by
    rw [List.length_take, List.length_drop]
    omega
  apply isThrough_of_slack
    ((p.drop (i - halfWidth w)).take (2 * halfWidth w + 1)) _
    (halfWidth w) ε h
  · rw [hup, List.length_take, List.length_drop]
    omega
  · omega
  · intro k hk
    rw [hup] at hk
    rw [window_getD p (i - halfWidth w) (2 * halfWidth w + 1) k hk,
      window_getD q (i - halfWidth w) (2 * halfWidth w + 1) k hk]
    exact hpert (i - halfWidth w + k) (by omega)
  · exact hslack

/-- Witness for the amended C7: the trough at index 1 of `[5,0,5]` holds
with slack 2 and survives the perturbation to `[5,1,5]`. -/
theorem findThroughs_perturb_slack_witness :
    ∃ ts, findThroughs [5, 1, 5] 3 1 = Except.ok ts ∧ 1 ∈ ts :=
  findThroughs_perturb_slack [5, 0, 5] [5, 1, 5] 3 1 1 (by decide)
    (by decide) (by decide) (by decide) 1 (by decide) (by decide)
    (by unfold isThroughSlack; decide)

/-! ## C10 -/

/-- C10: for channels in `[0, 65535]`, the value of the Euclidean metric
is nonnegative and at most `65535·sqrt 3 / 2 < 65535`, so the
negative-value branch, the above-65601 branch and the clip branch of
`ColorDistanceSimpleEuclidean` are all unreachable and the function
always returns the truncated distance, never an error. -/
theorem colorDistanceSimpleEuclidean_total (c1 c2 : Color)
    (h1r : c1.r ≤ 65535) (h1g : c1.g ≤ 65535) (h1b : c1.b ≤ 65535)
    (h2r : c2.r ≤ 65535) (h2g : c2.g ≤ 65535) (h2b : c2.b ≤ 65535) :
    0 ≤ euclidDist c1 c2 ∧
      euclidDist c1 c2 ≤ 65535 * Real.sqrt 3 / 2 ∧
      65535 * Real.sqrt 3 / 2 < 65535 ∧
      ColorDistanceSimpleEuclidean c1 c2 =
        Except.ok (Nat.floor (euclidDist c1 c2)) := by
  have hsq : ∀ a b : ℕ, a ≤ 65535 → b ≤ 65535 →
      ((a : ℚ) - (b : ℚ)) ^ 2 ≤ 65535 ^ 2 := by
    intro a b ha hb
    have ha1 : (a : ℚ) ≤ 65535 := by exact_mod_cast ha
    have hb1 : (b : ℚ) ≤ 65535 := by exact_mod_cast hb
    have ha0 : (0 : ℚ) ≤ a := Nat.cast_nonneg a
    have hb0 : (0 : ℚ) ≤ b := Nat.cast_nonneg b
    apply sq_le_sq' <;> linarith
  have hSb : euclidSqDist c1 c2 ≤ 3 * 65535 ^ 2 := by
    unfold euclidSqDist
    have e1 := hsq c1.r c2.r h1r h2r
    have e2 := hsq c1.g c2.g h1g h2g
    have e3 := hsq c1.b c2.b h1b h2b
    linarith
  have hd0 : 0 ≤ euclidDist c1 c2 := by
    unfold euclidDist
    positivity
  have hsqrt3 : Real.sqrt 3 < 2 :=
    (Real.sqrt_lt' (by norm_num)).mpr (by norm_num)
  have hdb : euclidDist c1 c2 ≤ 65535 * Real.sqrt 3 / 2 := by
    unfold euclidDist
    have hc : ((euclidSqDist c1 c2 : ℚ) : ℝ) ≤ ((3 * 65535 ^ 2 : ℚ) : ℝ) := by
      exact_mod_cast hSb
    have hmono := Real.sqrt_le_sqrt hc
    have heq : Real.sqrt (((3 * 65535 ^ 2 : ℚ)) : ℝ) = Real.sqrt 3 * 65535 := by
      rw [show (((3 * 65535 ^ 2 : ℚ)) : ℝ) = 3 * 65535 ^ 2 by norm_num]
      rw [Real.sqrt_mul (by norm_num) (65535 ^ 2)]
      rw [Real.sqrt_sq (by norm_num : (0 : ℝ) ≤ 65535)]
    rw [heq] at hmono
    linarith
  have hmax : 65535 * Real.sqrt 3 / 2 < 65535 := by
    linarith
  refine ⟨hd0, hdb, hmax, ?_⟩
  have hdlt : euclidDist c1 c2 < 65535 := by linarith
  unfold ColorDistanceSimpleEuclidean
  rw [if_neg (not_lt.mpr hd0), if_neg (not_lt.mpr (le_of_lt hdlt))]

/-- Witness for C10 at the all-zero color pair. -/
theorem colorDistanceSimpleEuclidean_total_witness :
    0 ≤ euclidDist cBlack cBlack ∧
      euclidDist cBlack cBlack ≤ 65535 * Real.sqrt 3 / 2 ∧
      65535 * Real.sqrt 3 / 2 < 65535 ∧
      ColorDistanceSimpleEuclidean cBlack cBlack =
        Except.ok (Nat.floor (euclidDist cBlack cBlack)) :=
  colorDistanceSimpleEuclidean_total cBlack cBlack (by decide) (by decide)
    (by decide) (by decide) (by decide) (by decide)

/-! ## C4 -/

/-- Counterexample to C4: on white versus yellow the radicand of the
source is `2` (the blue weight `(255-r̄)/256` vanishes and only the stray
additive constant 2 remains), so the code returns at most 199, while the
claimed formula has radicand `2·255² = 130050` and returns at least
24000. -/
theorem redman_spec_counterexample :
    (ColorDistanceRedman cWhite cYellow : ℤ) ≠
      redmeanSpecDistance cWhite cYellow := by
  have hrad : redmanRadicand cWhite cYellow = 2 := by
    norm_num [redmanRadicand, reduce8, cWhite, cYellow]
  have hsrad : redmeanSpecRadicand cWhite cYellow = 130050 := by
    norm_num [redmeanSpecRadicand, reduce8, cWhite, cYellow]
  have hcode : ColorDistanceRedman cWhite cYellow < 200 := by
    unfold ColorDistanceRedman
    rw [hrad, show (((2 : ℚ)) : ℝ) = (2 : ℝ) by norm_num]
    have hs2 : Real.sqrt 2 < 1.5 :=
      (Real.sqrt_lt' (by norm_num)).mpr (by norm_num)
    have hnn : (0 : ℝ) ≤ Real.sqrt 2 * 65535 / 675 := by positivity
    have hlt : Real.sqrt 2 * 65535 / 675 < 200 := by linarith
    exact (Nat.floor_lt hnn).mpr (by exact_mod_cast hlt)
  have hspec : (24000 : ℤ) ≤ redmeanSpecDistance cWhite cYellow := by
    unfold redmeanSpecDistance
    rw [hsrad, show (((130050 : ℚ)) : ℝ) = (130050 : ℝ) by norm_num]
    have h300 : (300 : ℝ) ≤ Real.sqrt 130050 := by
      rw [show (300 : ℝ) = Real.sqrt (300 ^ 2) by
        rw [Real.sqrt_sq (by norm_num : (0 : ℝ) ≤ 300)]]
      exact Real.sqrt_le_sqrt (by norm_num)
    have hx : (29000 : ℝ) ≤ Real.sqrt 130050 * 65535 / 675 := by linarith
    have habs := abs_le.mp (abs_sub_round (Real.sqrt 130050 * 65535 / 675))
    have hr : (24000 : ℝ) ≤
        ((round (Real.sqrt 130050 * 65535 / 675) : ℤ) : ℝ) := by
      linarith [habs.1, habs.2]
    exact_mod_cast hr
  intro heq
  omega

/-- C4 (amended): `ColorDistanceRedman` reduces each channel to 8 bits by
discarding the low 8 bits, and with `r̄ = (r1+r2)/2` over the reduced
channels returns `trunc(sqrt((2+r̄/256)·(r1-r2)² + 4·(g1-g2)² + 2 +
((255-r̄)/256)·(b1-b2)²) · 65535/675)`: only the weight `(255-r̄)/256`
multiplies the squared blue difference, the constant 2 is added to the
radicand separately, and the scaled result is truncated, not rounded. -/
theorem redman_eq_amendedSpec (c1 c2 : Color) :
    ColorDistanceRedman c1 c2 =
      redmeanAmendedSpec (reduce8 c1.r) (reduce8 c1.g) (reduce8 c1.b)
        (reduce8 c2.r) (reduce8 c2.g) (reduce8 c2.b) := by
  simp only [ColorDistanceRedman, redmeanAmendedSpec]
  rw [redman_radicand_amended]

end LTP
